import Mathlib

/-!
Shallow embedding of the session-orchestration core of the FarmBrief bot
(`src/handlers/commands.py`) and proofs about the claims of its
specification.  Each Python function relevant to a claim is translated to
an executable Lean definition; machine arithmetic that Python performs on
floats is modelled over the rationals, and Python's `int(...)` truncation
toward zero is modelled by `pyInt`.
-/

abbrev UserId := Nat

abbrev SessionId := Nat

/-- Model of Python's `int(x)` applied to a real value: truncation toward
zero (floor for nonnegative arguments, ceiling for negative ones). -/
def pyInt (x : ℚ) : ℤ := if 0 ≤ x then ⌊x⌋ else ⌈x⌉

/-- The four option labels of a quiz question (`option_emojis` keys
A, B, C, D in `run_quiz`). -/
inductive Label
  | A
  | B
  | C
  | D
deriving DecidableEq

/-- One quiz question, as produced by `generate_quiz_questions` and
consumed by `run_quiz`: prompt, four labelled options, correct label and
explanation text. -/
structure Question where
  question : String
  options : Label → String
  correct : Label
  explanation : String

/-- One reaction event arriving during an answer window: the reacting
user, the option label of the reaction emoji, and the elapsed time
(seconds since the question was posted, `time_taken` in `run_quiz`). -/
structure AnswerEvent where
  user : UserId
  label : Label
  time : ℚ

/-- Mutable state of one answer window in `run_quiz`: the set of users who
already answered this question (`answered_users`) and the accumulated
score map (`quiz_data["scores"]`, defaulting to 0). -/
structure WindowState where
  answered : List UserId
  scores : UserId → ℤ

/-- `time_bonus = int((10 - time_taken) * 10)` from `run_quiz`. -/
def time_bonus (time_taken : ℚ) : ℤ := pyInt ((10 - time_taken) * 10)

/-- Processing of one `reaction_add` event inside the answer window of
`run_quiz` (lines 760-786).  The `wait_for` check accepts the event only
if the user is a registered participant and has not answered this
question yet; an accepted user is recorded in `answered_users`, and a
correct answer adds `100 + time_bonus` to the score while an incorrect
one leaves the scores untouched. -/
def answerStep (q : Question) (participants : List UserId)
    (st : WindowState) (e : AnswerEvent) : WindowState :=
  if e.user ∈ participants ∧ e.user ∉ st.answered then
    { answered := e.user :: st.answered,
      scores :=
        if e.label = q.correct then
          Function.update st.scores e.user
            (st.scores e.user + (100 + time_bonus e.time))
        else st.scores }
  else st

/-- The whole answer window of one question: the events observed during
the 10-second window, processed in arrival order. -/
def answerWindow (q : Question) (participants : List UserId)
    (st : WindowState) (events : List AnswerEvent) : WindowState :=
  events.foldl (answerStep q participants) st

/-- An empty window state: nobody has answered, all scores 0 (joined
participants are registered with score 0 in `create_quiz`). -/
def windowInit : WindowState := { answered := [], scores := fun _ => 0 }

/-- A sample question used by witnesses. -/
def sampleQuestion : Question :=
  { question := "q", options := fun _ => "o", correct := Label.A,
    explanation := "e" }

/-- For an accepted event, `time_bonus` coincides with the floor of
`(10 - t) * 10` because the argument is nonnegative inside the window. -/
theorem time_bonus_eq_floor (t : ℚ) (ht : t ≤ 10) :
    time_bonus t = ⌊(10 - t) * 10⌋ := by
  unfold time_bonus pyInt
  rw [if_pos]
  nlinarith

/-- C1: in the 10-second answer window, a participant whose first
reaction selects the correct option at elapsed time `t` (`0 ≤ t < 10`)
has exactly `100 + ⌊(10 - t) * 10⌋` points added to their score; the
award is 200 at `t = 0` and 101 at `t = 9.9`, it is monotonically
non-increasing in `t`, and an incorrect answer leaves the score
unchanged regardless of timing. -/
theorem quiz_scoring_award (q : Question) (participants : List UserId)
    (st : WindowState) (u : UserId) (lab : Label) (t t' : ℚ)
    (hmem : u ∈ participants) (hnew : u ∉ st.answered)
    (ht0 : 0 ≤ t) (ht10 : t < 10) (ht0' : 0 ≤ t') (ht10' : t' < 10)
    (htt : t ≤ t') :
    (lab = q.correct →
      (answerStep q participants st ⟨u, lab, t⟩).scores u
        = st.scores u + (100 + ⌊(10 - t) * 10⌋))
    ∧ (answerStep q participants st ⟨u, q.correct, 0⟩).scores u
        = st.scores u + 200
    ∧ (answerStep q participants st ⟨u, q.correct, 99 / 10⟩).scores u
        = st.scores u + 101
    ∧ 100 + time_bonus t' ≤ 100 + time_bonus t
    ∧ (lab ≠ q.correct →
      (answerStep q participants st ⟨u, lab, t⟩).scores u = st.scores u) := by
  have hstep : ∀ l : Label, ∀ s : ℚ,
      (answerStep q participants st ⟨u, l, s⟩).scores u
        = if l = q.correct then st.scores u + (100 + time_bonus s)
          else st.scores u := by
    intro l s
    unfold answerStep
    rw [if_pos ⟨hmem, hnew⟩]
    by_cases hl : l = q.correct
    · simp [hl, Function.update_same]
    · simp [hl]
  refine ⟨?_, ?_, ?_, ?_, ?_⟩
  · intro hlab
    rw [hstep, if_pos hlab, time_bonus_eq_floor t (le_of_lt ht10)]
  · rw [hstep, if_pos rfl, time_bonus_eq_floor 0 (by norm_num)]
    norm_num
  · rw [hstep, if_pos rfl, time_bonus_eq_floor (99 / 10) (by norm_num)]
    norm_num
  · have h1 : time_bonus t' = ⌊(10 - t') * 10⌋ :=
      time_bonus_eq_floor t' (le_of_lt ht10')
    have h2 : time_bonus t = ⌊(10 - t) * 10⌋ :=
      time_bonus_eq_floor t (le_of_lt ht10)
    have hle : (10 - t') * 10 ≤ (10 - t) * 10 := by nlinarith
    rw [h1, h2]
    have := Int.floor_le_floor hle
    omega
  · intro hlab
    rw [hstep, if_neg hlab]

/-- Witness for C1: a concrete participant answering the sample question
correctly at `t = 0` receives exactly 200 points. -/
theorem quiz_scoring_award_witness :
    (answerStep sampleQuestion [1] windowInit ⟨1, Label.A, 0⟩).scores 1
      = windowInit.scores 1 + 200 :=
  (quiz_scoring_award sampleQuestion [1] windowInit 1 Label.A 0 5
    (by simp) (by simp [windowInit]) (by norm_num) (by norm_num)
    (by norm_num) (by norm_num) (by norm_num)).2.1

/-- Once a user is recorded in `answered_users`, the rest of the window
leaves both membership and that user's score unchanged: the `wait_for`
check rejects every further reaction from that user, and reactions from
other users only update their own score entries. -/
theorem answerWindow_frozen (q : Question) (participants : List UserId)
    (u : UserId) :
    ∀ (events : List AnswerEvent) (st : WindowState), u ∈ st.answered →
      u ∈ (answerWindow q participants st events).answered
        ∧ (answerWindow q participants st events).scores u = st.scores u := by
  intro events
  induction events with
  | nil => intro st h; exact ⟨h, rfl⟩
  | cons e rest ih =>
    intro st h
    have hstep : u ∈ (answerStep q participants st e).answered
        ∧ (answerStep q participants st e).scores u = st.scores u := by
      unfold answerStep
      by_cases hacc : e.user ∈ participants ∧ e.user ∉ st.answered
      · have hne : e.user ≠ u := fun heq => hacc.2 (heq ▸ h)
        rw [if_pos hacc]
        refine ⟨List.mem_cons_of_mem _ h, ?_⟩
        by_cases hl : e.label = q.correct
        · simp only [hl, if_pos]
          exact Function.update_noteq (fun heq => hne heq.symm) _ _
        · simp [hl]
      · rw [if_neg hacc]
        exact ⟨h, rfl⟩
    have := ih (answerStep q participants st e) hstep.1
    exact ⟨this.1, this.2.trans hstep.2⟩

/-- C2: within one answer window, at most one reaction per participant is
scored.  If after the events `es1` the participant `e.user` has not yet
answered, then their final score over the whole window `es1 ++ e :: es2`
is exactly the score right after their reaction `e` was processed — the
events `es2` arriving later cannot change it — and any reaction by a user
who is already in `answered_users` leaves the window state entirely
unchanged. -/
theorem quiz_first_answer_wins (q : Question) (participants : List UserId)
    (st : WindowState) (es1 es2 : List AnswerEvent) (e : AnswerEvent)
    (hmem : e.user ∈ participants)
    (hnew : e.user ∉ (answerWindow q participants st es1).answered) :
    (answerWindow q participants st (es1 ++ e :: es2)).scores e.user
      = (answerStep q participants (answerWindow q participants st es1) e).scores
          e.user
    ∧ ∀ (st' : WindowState) (e2 : AnswerEvent), e2.user ∈ st'.answered →
        answerStep q participants st' e2 = st' := by
  constructor
  · have hsplit : answerWindow q participants st (es1 ++ e :: es2)
        = answerWindow q participants
            (answerStep q participants (answerWindow q participants st es1) e)
            es2 := by
      unfold answerWindow
      rw [List.foldl_append, List.foldl_cons]
    rw [hsplit]
    have hin : e.user ∈ (answerStep q participants
        (answerWindow q participants st es1) e).answered := by
      unfold answerStep
      rw [if_pos ⟨hmem, hnew⟩]
      exact List.mem_cons_self _ _
    exact (answerWindow_frozen q participants e.user es2 _ hin).2
  · intro st' e2 h2
    unfold answerStep
    rw [if_neg]
    intro hacc
    exact hacc.2 h2

/-- Witness for C2: with one participant answering at `t = 1` and then
again at `t = 2`, the final score is the one fixed by the first reaction
(190 points), and the duplicate reaction is a no-op on the state. -/
theorem quiz_first_answer_wins_witness :
    (answerWindow sampleQuestion [1] windowInit
        ([] ++ AnswerEvent.mk 1 Label.A 1 :: [AnswerEvent.mk 1 Label.A 2])).scores 1
      = (answerStep sampleQuestion [1] (answerWindow sampleQuestion [1] windowInit [])
          (AnswerEvent.mk 1 Label.A 1)).scores 1 :=
  (quiz_first_answer_wins sampleQuestion [1] windowInit []
    [AnswerEvent.mk 1 Label.A 2] (AnswerEvent.mk 1 Label.A 1)
    (by simp) (by simp [answerWindow, windowInit])).1

/-- Observable events emitted by the `run_quiz` loop, in emission order:
the question embed, the correct-answer reveal (embed edit plus message),
the intermediate leaderboard (`display_leaderboard` with the default
title), the 3-second pause, the completion message And the final
leaderboard (`display_leaderboard` with the final-rankings title). -/
inductive QuizEvent
  | question (i : Nat)
  | reveal (i : Nat)
  | midLeaderboard
  | pause
  | completedMsg
  | finalLeaderboard
deriving DecidableEq

/-- The leaderboard condition of `run_quiz` for 0-based question index
`i` out of `n`: `(i + 1) % 2 == 0 or i == len(questions) - 1`. -/
def leaderboardDue (n i : Nat) : Bool := (i + 1) % 2 == 0 || i == n - 1

/-- Events emitted for question `i` of an `n`-question quiz: question,
reveal, the leaderboard when due, and the pause between questions. -/
def quizBlock (n i : Nat) : List QuizEvent :=
  [QuizEvent.question i, QuizEvent.reveal i]
    ++ (if leaderboardDue n i then [QuizEvent.midLeaderboard] else [])
    ++ [QuizEvent.pause]

/-- The full event trace of `run_quiz` over an `n`-question quiz: one
block per question in order, then the completion message and the final
leaderboard. -/
def run_quiz_trace (n : Nat) : List QuizEvent :=
  ((List.range n).flatMap (quizBlock n))
    ++ [QuizEvent.completedMsg, QuizEvent.finalLeaderboard]

/-- Recognizer for reveal events. -/
def isReveal : QuizEvent → Bool
  | QuizEvent.reveal _ => true
  | _ => false

/-- `shownAfter x y l` holds when the element immediately following the
first occurrence of `x` in `l` is `y`. -/
def shownAfter (x y : QuizEvent) : List QuizEvent → Bool
  | [] => false
  | a :: rest =>
      if a = x then
        match rest with
        | [] => false
        | b :: _ => b = y
      else shownAfter x y rest

/-- The reveal events of any list of question blocks are exactly the
indices of the blocks, in order. -/
theorem filter_isReveal_flatMap (n : Nat) :
    ∀ l : List Nat,
      (l.flatMap (quizBlock n)).filter isReveal = l.map QuizEvent.reveal := by
  intro l
  induction l with
  | nil => rfl
  | cons j rest ih =>
    rw [List.flatMap_cons, List.filter_append, ih, List.map_cons]
    unfold quizBlock
    by_cases hd : leaderboardDue n j
    · simp [hd, isReveal]
    · simp [hd, isReveal]

/-- Unfolding equation of `shownAfter` on a nonempty list. -/
theorem shownAfter_cons (x y a : QuizEvent) (l : List QuizEvent) :
    shownAfter x y (a :: l)
      = if a = x then
          (match l with
            | [] => false
            | b :: _ => decide (b = y))
        else shownAfter x y l := rfl

/-- `shownAfter` skips over a list that does not contain its first
argument. -/
theorem shownAfter_append_of_not_mem (x y : QuizEvent) (l1 l2 : List QuizEvent)
    (h : ∀ a ∈ l1, a ≠ x) :
    shownAfter x y (l1 ++ l2) = shownAfter x y l2 := by
  induction l1 with
  | nil => rfl
  | cons a rest ih =>
    rw [List.cons_append, shownAfter_cons,
      if_neg (h a (List.mem_cons_self _ _))]
    exact ih (fun b hb => h b (List.mem_cons_of_mem _ hb))

/-- No event of the block of question `j` is the reveal of a different
question `i`. -/
theorem quizBlock_no_other_reveal (n i j : Nat) (hne : j ≠ i) :
    ∀ a ∈ quizBlock n j, a ≠ QuizEvent.reveal i := by
  intro a ha hax
  subst hax
  unfold quizBlock at ha
  by_cases hd : leaderboardDue n j
  · simp [hd] at ha
    omega
  · simp [hd] at ha
    omega

/-- C8: for an `n`-question quiz run to completion (`n ≥ 1`), the trace
of `run_quiz` contains exactly `n` reveal events, one per question in
question order, and the intermediate leaderboard is shown immediately
after the reveal of question `i` exactly when the 1-based question number
`i + 1` is even or `i` is the last question. -/
theorem quiz_reveals_and_leaderboards (n : Nat) (hn : 1 ≤ n) :
    (run_quiz_trace n).filter isReveal = (List.range n).map QuizEvent.reveal
    ∧ ∀ i, i < n →
        (shownAfter (QuizEvent.reveal i) QuizEvent.midLeaderboard
            (run_quiz_trace n) = true
          ↔ ((i + 1) % 2 = 0 ∨ i = n - 1)) := by
  constructor
  · unfold run_quiz_trace
    rw [List.filter_append, filter_isReveal_flatMap]
    simp [isReveal]
  · intro i hi
    obtain ⟨k, hk⟩ : ∃ k, n = (i + 1) + k := ⟨n - (i + 1), by omega⟩
    have hsplit : List.range n
        = (List.range i ++ [i]) ++ (List.range k).map (fun x => (i + 1) + x) := by
      rw [hk, List.range_add, List.range_succ]
    have htrace : run_quiz_trace n
        = (List.range i).flatMap (quizBlock n)
          ++ (quizBlock n i
            ++ (((List.range k).map (fun x => (i + 1) + x)).flatMap (quizBlock n)
              ++ [QuizEvent.completedMsg, QuizEvent.finalLeaderboard])) := by
      unfold run_quiz_trace
      rw [hsplit, List.flatMap_append, List.flatMap_append, List.flatMap_cons,
        List.flatMap_nil, List.append_nil]
      simp [List.append_assoc]
    rw [htrace, shownAfter_append_of_not_mem]
    · have hblock : quizBlock n i
          ++ (((List.range k).map (fun x => (i + 1) + x)).flatMap (quizBlock n)
            ++ [QuizEvent.completedMsg, QuizEvent.finalLeaderboard])
          = QuizEvent.question i :: QuizEvent.reveal i ::
            ((if leaderboardDue n i then [QuizEvent.midLeaderboard] else [])
              ++ ([QuizEvent.pause]
                ++ (((List.range k).map (fun x => (i + 1) + x)).flatMap (quizBlock n)
                  ++ [QuizEvent.completedMsg, QuizEvent.finalLeaderboard]))) := by
        unfold quizBlock
        simp [List.append_assoc]
      rw [hblock, shownAfter_cons, if_neg (by simp), shownAfter_cons,
        if_pos rfl]
      by_cases hd : leaderboardDue n i
      · rw [if_pos hd]
        simp only [List.cons_append]
        constructor
        · intro _
          have := hd
          unfold leaderboardDue at this
          simpa using this
        · intro _
          simp
      · rw [if_neg hd]
        simp only [List.nil_append, List.cons_append]
        constructor
        · intro habs
          simp at habs
        · intro hcond
          exfalso
          apply hd
          unfold leaderboardDue
          simpa using hcond
    · intro a ha
      obtain ⟨j, hj, haj⟩ := List.mem_flatMap.mp ha
      exact quizBlock_no_other_reveal n i j
        (by have := List.mem_range.mp hj; omega) a haj

/-- Witness for C8: a 3-question quiz has reveals for questions 0, 1, 2 in
order, and the intermediate leaderboard follows question index 1 (second
question). -/
theorem quiz_reveals_and_leaderboards_witness :
    (run_quiz_trace 3).filter isReveal = (List.range 3).map QuizEvent.reveal
    ∧ (shownAfter (QuizEvent.reveal 1) QuizEvent.midLeaderboard
        (run_quiz_trace 3) = true ↔ ((1 + 1) % 2 = 0 ∨ 1 = 3 - 1)) :=
  ⟨(quiz_reveals_and_leaderboards 3 (by norm_num)).1,
    (quiz_reveals_and_leaderboards 3 (by norm_num)).2 1 (by norm_num)⟩

/-- Removal of a session id from a session store, as `del store[id]` on a
Python dict whose keys are the ids (`storeErase` removes the id
completely). -/
def storeErase (store : List SessionId) (id : SessionId) : List SessionId :=
  store.filter (fun x => x ≠ id)

/-- The join loop of `create_quiz` (lines 673-688): starting a fresh
`wait_for` with `timeout=10.0` after the announcement and after each
accepted join signal.  Given the start time `s` of the current wait and
the arrival times of the join signals, it returns the times of the
registered joins and the time at which the loop exits by
`asyncio.TimeoutError` (the phase close time). -/
def joinLoop (s : ℚ) : List ℚ → List ℚ × ℚ
  | [] => ([], s + 10)
  | a :: rest =>
      if a - s < 10 then
        let r := joinLoop a rest
        (a :: r.1, r.2)
      else ([], s + 10)

/-- The forming phase of `create_quiz` after the announcement at time 0:
run the join loop, and when no participant joined, discard the session
(`del self.active_quizzes[quiz_id]`).  Returns the store, the registered
join times and the close time. -/
def create_quiz_forming (store : List SessionId) (id : SessionId)
    (ts : List ℚ) : List SessionId × List ℚ × ℚ :=
  if (joinLoop 0 ts).1.isEmpty then
    (storeErase store id, (joinLoop 0 ts).1, (joinLoop 0 ts).2)
  else (store, (joinLoop 0 ts).1, (joinLoop 0 ts).2)

/-- C5 counterexample: the claim says no join signal arriving more than
10 seconds after the quiz announcement is registered and that the phase
closes once those 10 seconds have elapsed.  With join signals at times 9
and 18, the signal at time 18 — more than 10 seconds after the
announcement at time 0 — is registered, and the loop closes only at time
28, because each accepted join restarts the 10-second `wait_for`
timeout. -/
theorem quiz_join_window_not_fixed :
    (18 : ℚ) ∈ (joinLoop 0 [9, 18]).1
    ∧ ¬ ((18 : ℚ) ≤ 0 + 10)
    ∧ (joinLoop 0 [9, 18]).2 = 28 := by
  refine ⟨?_, by norm_num, ?_⟩ <;> norm_num [joinLoop]

/-- The registered joins form a chain in which each join arrives less
than 10 seconds after the previous one (or after the wait start). -/
theorem joinLoop_chain (ts : List ℚ) :
    ∀ s : ℚ, List.Chain (fun x y => y - x < 10) s (joinLoop s ts).1 := by
  induction ts with
  | nil => intro s; exact List.Chain.nil
  | cons a rest ih =>
    intro s
    unfold joinLoop
    by_cases h : a - s < 10
    · rw [if_pos h]
      exact List.Chain.cons h (ih a)
    · rw [if_neg h]
      exact List.Chain.nil

/-- The loop exits by timeout exactly 10 seconds after the last
registered join (10 seconds after the wait start when no join was
registered). -/
theorem joinLoop_close (ts : List ℚ) :
    ∀ s : ℚ, (joinLoop s ts).2 = ((joinLoop s ts).1).getLastD s + 10 := by
  induction ts with
  | nil => intro s; simp [joinLoop]
  | cons a rest ih =>
    intro s
    unfold joinLoop
    by_cases h : a - s < 10
    · rw [if_pos h]
      show (joinLoop a rest).2 = (a :: (joinLoop a rest).1).getLastD s + 10
      rw [List.getLastD_cons]
      exact ih a
    · rw [if_neg h]
      simp

/-- C5 amended: for every sequence of join signals, each `wait_for` of
the join phase uses a fresh 10-second timeout, so every registered join
arrives less than 10 seconds after the previous registered one (or after
the announcement for the first), the phase closes by timeout 10 seconds
after the last registered join (10 seconds after the announcement when
nobody joined), a forming phase with no registered participant discards
the session from the store, and one with registered participants keeps
the store unchanged and proceeds. -/
theorem quiz_join_window_resets (store : List SessionId) (id : SessionId)
    (ts : List ℚ) :
    List.Chain (fun x y => y - x < 10) 0 (joinLoop 0 ts).1
    ∧ (joinLoop 0 ts).2 = ((joinLoop 0 ts).1).getLastD 0 + 10
    ∧ ((joinLoop 0 ts).1 = [] →
        (create_quiz_forming store id ts).1 = storeErase store id
        ∧ id ∉ (create_quiz_forming store id ts).1)
    ∧ ((joinLoop 0 ts).1 ≠ [] →
        (create_quiz_forming store id ts).1 = store) := by
  refine ⟨joinLoop_chain ts 0, joinLoop_close ts 0, ?_, ?_⟩
  · intro hempty
    constructor
    · unfold create_quiz_forming
      rw [hempty]
      rfl
    · unfold create_quiz_forming
      rw [hempty]
      simp [storeErase, List.mem_filter]
  · intro hne
    unfold create_quiz_forming
    rw [if_neg (by simpa [List.isEmpty_iff] using hne)]

/-- Witness for the amended C5: with join signals at times 9 and 18 both
joins are registered (each within 10 seconds of the previous wait
start), the phase closes at time 28 = 18 + 10, and since participants
registered, the session with id 5 stays in the store. -/
theorem quiz_join_window_resets_witness :
    List.Chain (fun x y => y - x < 10) 0 (joinLoop 0 [9, 18]).1
    ∧ (joinLoop 0 [9, 18]).2 = ((joinLoop 0 [9, 18]).1).getLastD 0 + 10
    ∧ (create_quiz_forming [5] 5 [9, 18]).1 = [5] :=
  ⟨(quiz_join_window_resets [5] 5 [9, 18]).1,
    (quiz_join_window_resets [5] 5 [9, 18]).2.1,
    (quiz_join_window_resets [5] 5 [9, 18]).2.2.2
      (by norm_num [joinLoop]; simp)⟩

/-- How the body of an orchestrator function ends: it either runs to the
end of the `try` block or raises an exception somewhere inside it. -/
inductive BodyOutcome
  | ok
  | raised
deriving DecidableEq

/-- Exit paths of `run_quiz` (lines 734-818): the `try` body either
completes or raises; an exception is caught and reported by the `except`
clause, and in both cases the `finally` clause removes the quiz from
`self.active_quizzes` (guarded by a membership test). -/
def run_quiz_exit (o : BodyOutcome) (store : List SessionId)
    (id : SessionId) : List SessionId :=
  match o with
  | BodyOutcome.ok => if id ∈ store then storeErase store id else store
  | BodyOutcome.raised => if id ∈ store then storeErase store id else store

/-- Exit paths of `run_debate` (lines 970-1035): same `try`, `except`,
`finally` shape as `run_quiz`, removing the debate from
`self.active_debates` on both paths. -/
def run_debate_exit (o : BodyOutcome) (store : List SessionId)
    (id : SessionId) : List SessionId :=
  match o with
  | BodyOutcome.ok => if id ∈ store then storeErase store id else store
  | BodyOutcome.raised => if id ∈ store then storeErase store id else store

/-- Ways the body of `end_whiteboard` (lines 1202-1253) can end once the
active session of the channel has been found: early return because no
image was collected, normal completion, or an exception. -/
inductive WhiteboardBodyOutcome
  | noImages
  | ok
  | raised
deriving DecidableEq

/-- Exit paths of `end_whiteboard`: the early `return` for an image-less
session, normal completion and a caught exception all run the `finally`
clause, which removes the session from `self.active_whiteboards`. -/
def end_whiteboard_exit (o : WhiteboardBodyOutcome) (store : List SessionId)
    (id : SessionId) : List SessionId :=
  match o with
  | WhiteboardBodyOutcome.noImages =>
      if id ∈ store then storeErase store id else store
  | WhiteboardBodyOutcome.ok =>
      if id ∈ store then storeErase store id else store
  | WhiteboardBodyOutcome.raised =>
      if id ∈ store then storeErase store id else store

/-- Exit paths of `end_flashcard_session` (lines 1619-1665): the
`del self.active_flashcard_sets[set_id]` is the last statement of the
`try` block, not a `finally` clause, so it runs only when the body
completed without raising; an exception is caught by the `except` clause,
which sends an error message and leaves the store untouched. -/
def end_flashcard_session_exit (o : BodyOutcome) (store : List SessionId)
    (id : SessionId) : List SessionId :=
  match o with
  | BodyOutcome.ok => storeErase store id
  | BodyOutcome.raised => store

/-- C3 counterexample: the claim asserts `finally`-style guaranteed
removal on every exit path for every session kind, but when an error is
raised inside `end_flashcard_session` the flashcard session stays in the
store: with the store holding exactly session 7, the error exit leaves
the store unchanged, so the terminated session 7 is still present. -/
theorem flashcard_cleanup_not_guaranteed :
    end_flashcard_session_exit BodyOutcome.raised [7] 7 = [7]
    ∧ 7 ∈ end_flashcard_session_exit BodyOutcome.raised [7] 7 := by
  refine ⟨rfl, ?_⟩
  simp [end_flashcard_session_exit]

/-- C3 amended: the quiz, debate and whiteboard orchestrators remove the
session from their store on every exit path (normal completion, early
return, or a raised error), but `end_flashcard_session` removes the
session only on the normal path and leaves the store unchanged when an
error is raised inside its body. -/
theorem session_cleanup_exits (o o2 : BodyOutcome)
    (ow : WhiteboardBodyOutcome) (store : List SessionId) (id : SessionId) :
    id ∉ run_quiz_exit o store id
    ∧ id ∉ run_debate_exit o2 store id
    ∧ id ∉ end_whiteboard_exit ow store id
    ∧ end_flashcard_session_exit BodyOutcome.ok store id = storeErase store id
    ∧ id ∉ end_flashcard_session_exit BodyOutcome.ok store id
    ∧ end_flashcard_session_exit BodyOutcome.raised store id = store := by
  have herase : id ∉ storeErase store id := by
    simp [storeErase, List.mem_filter]
  have hguard : id ∉ (if id ∈ store then storeErase store id else store) := by
    by_cases h : id ∈ store
    · rw [if_pos h]; exact herase
    · rw [if_neg h]; exact h
  refine ⟨?_, ?_, ?_, rfl, herase, rfl⟩
  · cases o <;> exact hguard
  · cases o2 <;> exact hguard
  · cases ow <;> exact hguard

/-- The two sides of a debate, claimed with the check-mark and cross
reactions in `start_debate`. -/
inductive Side
  | sideFor
  | sideAgainst
deriving DecidableEq

/-- The two participant slots of a debate
(`debate_data["participants"]`), each empty or bound to one identity. -/
structure DebateParticipants where
  forSide : Option UserId
  againstSide : Option UserId
deriving DecidableEq

/-- Processing of one claim reaction in the recruitment loop of
`start_debate` (lines 951-960): a side is bound only when its slot is
still empty; a reaction for an already-claimed side falls through both
branches and changes nothing. -/
def claimStep (p : DebateParticipants) (side : Side) (u : UserId) :
    DebateParticipants :=
  match side with
  | Side.sideFor =>
      if p.forSide = none then { p with forSide := some u } else p
  | Side.sideAgainst =>
      if p.againstSide = none then { p with againstSide := some u } else p

/-- Both sides claimed: the negation of the recruitment loop
condition. -/
def debateComplete (p : DebateParticipants) : Bool :=
  p.forSide.isSome && p.againstSide.isSome

/-- Result of the recruitment wait of `start_debate`. -/
inductive RecruitResult
  | completed (p : DebateParticipants)
  | timedOut (p : DebateParticipants)
deriving DecidableEq

/-- The recruitment loop of `start_debate`: while both sides are not
claimed, wait up to 300 seconds (`timeout=300.0`) for the next matching
claim reaction; the wait expiring with a side still unclaimed ends the
loop in `asyncio.TimeoutError`.  `s` is the start time of the current
wait, each event carries its arrival time. -/
def recruitLoop (s : ℚ) (p : DebateParticipants) :
    List (ℚ × Side × UserId) → RecruitResult
  | [] =>
      if debateComplete p then RecruitResult.completed p
      else RecruitResult.timedOut p
  | (t, side, u) :: rest =>
      if debateComplete p then RecruitResult.completed p
      else if t - s < 300 then recruitLoop t (claimStep p side u) rest
      else RecruitResult.timedOut p

/-- The recruitment phase of `start_debate`: on timeout the session is
deleted from `self.active_debates` and the command returns before
`run_debate` is called (second component `none`, no phase entered); on
completion the session stays and `run_debate` receives the bound
participants. -/
def start_debate_recruit (store : List SessionId) (id : SessionId)
    (events : List (ℚ × Side × UserId)) :
    List SessionId × Option DebateParticipants :=
  match recruitLoop 0 ⟨none, none⟩ events with
  | RecruitResult.timedOut _ => (storeErase store id, none)
  | RecruitResult.completed p => (store, some p)

/-- The recruitment loop only times out while some side is unclaimed. -/
theorem recruitLoop_timedOut_incomplete (events : List (ℚ × Side × UserId)) :
    ∀ (s : ℚ) (p r : DebateParticipants),
      recruitLoop s p events = RecruitResult.timedOut r →
      debateComplete r = false := by
  induction events with
  | nil =>
    intro s p r h
    unfold recruitLoop at h
    by_cases hc : debateComplete p
    · rw [if_pos hc] at h; cases h
    · rw [if_neg hc] at h
      cases h
      exact Bool.not_eq_true _ ▸ (by simpa using hc)
  | cons e rest ih =>
    intro s p r h
    obtain ⟨t, side, u⟩ := e
    unfold recruitLoop at h
    by_cases hc : debateComplete p
    · rw [if_pos hc] at h; cases h
    · rw [if_neg hc] at h
      by_cases ht : t - s < 300
      · rw [if_pos ht] at h
        exact ih t (claimStep p side u) r h
      · rw [if_neg ht] at h
        cases h
        simpa using hc

/-- C7: a claim reaction for a side that is already bound leaves the
bindings unchanged (second claims are rejected), and whenever the
300-second recruitment wait expires with a side still unclaimed, the
debate session is removed from the store and no phase is entered
(`run_debate` is never invoked). -/
theorem debate_claims_and_timeout (p : DebateParticipants) (u v : UserId)
    (store : List SessionId) (id : SessionId)
    (events : List (ℚ × Side × UserId)) (r : DebateParticipants)
    (hfor : p.forSide = some u)
    (hagainst : p.againstSide = some u)
    (htimeout : recruitLoop 0 ⟨none, none⟩ events = RecruitResult.timedOut r) :
    claimStep p Side.sideFor v = p
    ∧ claimStep p Side.sideAgainst v = p
    ∧ debateComplete r = false
    ∧ start_debate_recruit store id events = (storeErase store id, none)
    ∧ id ∉ (start_debate_recruit store id events).1
    ∧ (start_debate_recruit store id events).2 = none := by
  have h1 : claimStep p Side.sideFor v = p := by
    unfold claimStep
    rw [hfor]
    simp
  have h2 : claimStep p Side.sideAgainst v = p := by
    unfold claimStep
    rw [hagainst]
    simp
  have h3 := recruitLoop_timedOut_incomplete events 0 ⟨none, none⟩ r htimeout
  have h4 : start_debate_recruit store id events = (storeErase store id, none) := by
    unfold start_debate_recruit
    rw [htimeout]
  refine ⟨h1, h2, h3, h4, ?_, by rw [h4]⟩
  rw [h4]
  simp [storeErase, List.mem_filter]

/-- Witness for C7: with both sides bound to user 2, further claims by
user 3 change nothing, and with a single claim event arriving at time 400
the first wait times out, the debate with id 4 is removed from the store
and no phase is entered. -/
theorem debate_claims_and_timeout_witness :
    claimStep { forSide := some 2, againstSide := some 2 } Side.sideFor 3
        = { forSide := some 2, againstSide := some 2 }
    ∧ claimStep { forSide := some 2, againstSide := some 2 } Side.sideAgainst 3
        = { forSide := some 2, againstSide := some 2 }
    ∧ debateComplete { forSide := none, againstSide := none } = false
    ∧ start_debate_recruit [4] 4 [(400, Side.sideFor, 9)]
        = (storeErase [4] 4, none)
    ∧ 4 ∉ (start_debate_recruit [4] 4 [(400, Side.sideFor, 9)]).1
    ∧ (start_debate_recruit [4] 4 [(400, Side.sideFor, 9)]).2 = none :=
  debate_claims_and_timeout
    { forSide := some 2, againstSide := some 2 } 2 3 [4] 4
    [(400, Side.sideFor, 9)] { forSide := none, againstSide := none }
    rfl rfl (by norm_num [recruitLoop, debateComplete, claimStep])

/-- Status of a whiteboard session (`session["status"]`). -/
inductive WStatus
  | active
  | completed
deriving DecidableEq

/-- One whiteboard session (`whiteboard_data` in `start_whiteboard`):
title, creator, owning channel, collected image buffers, contributor set
and status. -/
structure WSession where
  title : String
  creator : UserId
  channel_id : Nat
  images : List (List Nat)
  participants : List UserId
  status : WStatus
deriving DecidableEq

/-- The duplicate check of `start_whiteboard` (lines 1137-1141) applied
to one store entry: same channel and status active. -/
def isActiveInChannel (ch : Nat) (s : WSession) : Bool :=
  s.channel_id == ch && s.status == WStatus.active

/-- The fresh session created by `start_whiteboard`. -/
def newWhiteboard (title : String) (creator ch : Nat) : WSession :=
  { title := title, creator := creator, channel_id := ch, images := [],
    participants := [], status := WStatus.active }

/-- `start_whiteboard` (lines 1136-1156), from the point where the title
has been parsed: scan `self.active_whiteboards` for an active session in
the same channel and reject with an error message when one exists;
otherwise insert a fresh active session under the new id. -/
def start_whiteboard (store : List (SessionId × WSession)) (id : SessionId)
    (title : String) (creator ch : Nat) :
    Except String (List (SessionId × WSession)) :=
  if store.any (fun p => isActiveInChannel ch p.2) then
    Except.error "an active whiteboard session already exists in this channel"
  else
    Except.ok (store ++ [(id, newWhiteboard title creator ch)])

/-- Number of active whiteboard sessions of a channel in the store. -/
def activeWhiteboardCount (store : List (SessionId × WSession))
    (ch : Nat) : Nat :=
  (store.filter (fun p => isActiveInChannel ch p.2)).length

/-- C6: creating a whiteboard session fails with an explicit error
exactly when the store already holds an active session for the same
channel, succeeds by appending a fresh active session otherwise, and
creation preserves the invariant that every channel has at most one
active whiteboard session. -/
theorem whiteboard_unique_active (store : List (SessionId × WSession))
    (id : SessionId) (title : String) (creator ch : Nat)
    (hinv : ∀ c : Nat, activeWhiteboardCount store c ≤ 1) :
    ((∃ p ∈ store, isActiveInChannel ch p.2) →
      start_whiteboard store id title creator ch
        = Except.error
            "an active whiteboard session already exists in this channel")
    ∧ ((∀ p ∈ store, ¬ isActiveInChannel ch p.2) →
      start_whiteboard store id title creator ch
        = Except.ok (store ++ [(id, newWhiteboard title creator ch)]))
    ∧ ∀ store' : List (SessionId × WSession),
        start_whiteboard store id title creator ch = Except.ok store' →
        ∀ c : Nat, activeWhiteboardCount store' c ≤ 1 := by
  refine ⟨?_, ?_, ?_⟩
  · intro hex
    unfold start_whiteboard
    rw [if_pos]
    obtain ⟨p, hp, hap⟩ := hex
    exact List.any_eq_true.mpr ⟨p, hp, hap⟩
  · intro hall
    unfold start_whiteboard
    rw [if_neg]
    intro hany
    obtain ⟨p, hp, hap⟩ := List.any_eq_true.mp hany
    exact hall p hp hap
  · intro store' hok c
    unfold start_whiteboard at hok
    by_cases hany : store.any (fun p => isActiveInChannel ch p.2)
    · rw [if_pos hany] at hok
      cases hok
    · rw [if_neg hany] at hok
      cases hok
      unfold activeWhiteboardCount
      rw [List.filter_append]
      by_cases hc : c = ch
      · subst hc
        have hempty : store.filter (fun p => isActiveInChannel c p.2) = [] := by
          rw [List.filter_eq_nil]
          intro p hp
          intro hap
          exact hany (List.any_eq_true.mpr ⟨p, hp, hap⟩)
        rw [hempty]
        simp [isActiveInChannel, newWhiteboard]
      · have hnew : ¬ isActiveInChannel c (newWhiteboard title creator ch) := by
          simp [isActiveInChannel, newWhiteboard]
          intro h
          exact absurd h.symm hc
        have := hinv c
        unfold activeWhiteboardCount at this
        simp only [List.filter_cons, List.filter_nil]
        rw [if_neg (by simpa using hnew)]
        simpa using this

/-- Witness for C6: in an empty store the creation succeeds, and the
resulting store satisfies the at-most-one-active-per-channel
invariant. -/
theorem whiteboard_unique_active_witness :
    start_whiteboard [] 3 "t" 1 10
      = Except.ok ([] ++ [(3, newWhiteboard "t" 1 10)]) :=
  (whiteboard_unique_active [] 3 "t" 1 10
    (fun _ => by simp [activeWhiteboardCount])).2.1
    (fun p hp => by cases hp)

/-- The rate-limiting prologue of the speech-segment loop of
`create_podcast` (lines 296-300) with the handler state from
`CommandHandler.__init__` (lines 32-34): `min_request_interval = 2` and
`last_request_time = 0`.  For each segment the code reads the event-loop
time `now`, sleeps for `min_request_interval - (now - last_request_time)`
when `now - last_request_time < min_request_interval`, and then issues
the audio request.  No statement in the source ever assigns
`last_request_time` again, so the subtraction is always against the
initial value.  Given the value of `last_request_time` and the event-loop
times at which the loop reaches the prologue, this returns the times at
which the audio requests are issued. -/
def podcastIssueTimes (last_request_time : ℚ) : List ℚ → List ℚ
  | [] => []
  | now :: rest =>
      (if now - last_request_time < 2 then last_request_time + 2 else now)
        :: podcastIssueTimes last_request_time rest

/-- C4: the claim says every audio call starts at least 2 seconds after
the previous audio request was issued.  Because `last_request_time` is
never updated after `__init__`, two consecutive segments whose prologues
both run at event-loop time 100 are issued at times 100 and 100: the
second request starts 0 seconds — not at least 2 — after the first. -/
theorem podcast_rate_limit_dead :
    podcastIssueTimes 0 [100, 100] = [100, 100]
    ∧ ¬ (2 ≤ (100 : ℚ) - 100) := by
  constructor
  · norm_num [podcastIssueTimes]
  · norm_num

/-- A JSON-decoded Python value, as found in the fields of a generated
flashcard: an integer, a string, or anything else (float, list, null,
...). -/
inductive PyVal
  | vint (n : ℤ)
  | vstr (s : String)
  | vother
deriving DecidableEq

/-- One raw flashcard object decoded from the model response in
`generate_flashcards`: each of the four required keys is present
(`some`) or missing (`none`). -/
structure RawCard where
  question : Option PyVal
  answer : Option PyVal
  difficulty : Option PyVal
  category : Option PyVal
deriving DecidableEq

/-- `isinstance(card["difficulty"], int) and 1 <= card["difficulty"] <= 3`
from the validation loop of `generate_flashcards` (line 1377). -/
def isValidDifficulty : PyVal → Bool
  | PyVal.vint n => decide (1 ≤ n ∧ n ≤ 3)
  | _ => false

/-- One pass of the validation loop of `generate_flashcards`
(lines 1372-1378) over a single card: a missing required field raises
`ValueError` (`none`); an invalid difficulty is silently replaced by 1;
otherwise the card is kept as is. -/
def validateCard (c : RawCard) : Option RawCard :=
  match c.question, c.answer, c.difficulty, c.category with
  | some _, some _, some d, some _ =>
      if isValidDifficulty d then some c
      else some { c with difficulty := some (PyVal.vint 1) }
  | _, _, _, _ => none

/-- The whole validation loop: it either validates every card or raises
on the first bad one. -/
def validateAll : List RawCard → Option (List RawCard)
  | [] => some []
  | c :: cs =>
      match validateCard c, validateAll cs with
      | some c2, some cs2 => some (c2 :: cs2)
      | _, _ => none

/-- `generate_flashcards` (lines 1320-1384): a raised `ValueError` is
caught by the surrounding `except`, which returns the empty list;
otherwise the validated (difficulty-normalized) cards are returned. -/
def generate_flashcards (cards : List RawCard) : List RawCard :=
  match validateAll cards with
  | some out => out
  | none => []

/-- `difficulty_reviewed[card["difficulty"]] += 1` from
`end_flashcard_session` (line 1649): bump the counter of the card
difficulty in the dict with keys 1, 2 and 3; a difficulty outside the
three keys raises `KeyError` (`none`). -/
def difficultyBump (t : Nat × Nat × Nat) (card : RawCard) :
    Option (Nat × Nat × Nat) :=
  match card.difficulty with
  | some (PyVal.vint n) =>
      if n = 1 then some (t.1 + 1, t.2.1, t.2.2)
      else if n = 2 then some (t.1, t.2.1 + 1, t.2.2)
      else if n = 3 then some (t.1, t.2.1, t.2.2 + 1)
      else none
  | _ => none

/-- One step of the difficulty-breakdown loop of
`end_flashcard_session` (lines 1646-1649): fetch the reviewed card
(`KeyError`-like `none` on an out-of-range index) and bump the counter
of its difficulty. -/
def breakdownStep (cards : List RawCard) (acc : Option (Nat × Nat × Nat))
    (idx : Nat) : Option (Nat × Nat × Nat) :=
  match acc with
  | none => none
  | some t =>
      match cards[idx]? with
      | none => none
      | some card => difficultyBump t card

/-- The difficulty breakdown over the reviewed card indices computed at
the end of a flashcard session. -/
def difficulty_breakdown (cards : List RawCard) (reviewed : List Nat) :
    Option (Nat × Nat × Nat) :=
  reviewed.foldl (breakdownStep cards) (some (0, 0, 0))

/-- A card accepted by one pass of the validation loop carries an
integer difficulty between 1 and 3 (kept when already valid, replaced by
1 otherwise). -/
theorem validateCard_difficulty (c c2 : RawCard)
    (h : validateCard c = some c2) :
    ∃ n : ℤ, c2.difficulty = some (PyVal.vint n) ∧ 1 ≤ n ∧ n ≤ 3 := by
  obtain ⟨oq, oa, od, ok⟩ := c
  cases oq with
  | none =>
    rw [show validateCard ⟨none, oa, od, ok⟩ = none from rfl] at h
    cases h
  | some q0 =>
    cases oa with
    | none =>
      rw [show validateCard ⟨some q0, none, od, ok⟩ = none from rfl] at h
      cases h
    | some a0 =>
      cases od with
      | none =>
        rw [show validateCard ⟨some q0, some a0, none, ok⟩ = none from rfl] at h
        cases h
      | some d0 =>
        cases ok with
        | none =>
          rw [show validateCard ⟨some q0, some a0, some d0, none⟩ = none
            from rfl] at h
          cases h
        | some k0 =>
          rw [show validateCard ⟨some q0, some a0, some d0, some k0⟩
              = if isValidDifficulty d0
                then some (⟨some q0, some a0, some d0, some k0⟩ : RawCard)
                else some ⟨some q0, some a0, some (PyVal.vint 1), some k0⟩
            from rfl] at h
          by_cases hvd : isValidDifficulty d0
          · rw [if_pos hvd] at h
            cases h
            cases d0 with
            | vint n =>
              have hn := of_decide_eq_true
                (by simpa [isValidDifficulty] using hvd)
              exact ⟨n, rfl, hn.1, hn.2⟩
            | vstr s =>
              unfold isValidDifficulty at hvd
              cases hvd
            | vother =>
              unfold isValidDifficulty at hvd
              cases hvd
          · rw [if_neg hvd] at h
            cases h
            exact ⟨1, rfl, by norm_num, by norm_num⟩

/-- Every card surviving the whole validation loop carries an integer
difficulty between 1 and 3. -/
theorem validateAll_difficulty (cs : List RawCard) :
    ∀ out : List RawCard, validateAll cs = some out →
      ∀ c ∈ out, ∃ n : ℤ,
        c.difficulty = some (PyVal.vint n) ∧ 1 ≤ n ∧ n ≤ 3 := by
  induction cs with
  | nil =>
    intro out h c hc
    cases h
    cases hc
  | cons c0 rest ih =>
    intro out h c hc
    unfold validateAll at h
    cases hv : validateCard c0 with
    | none => rw [hv] at h; cases h
    | some c2 =>
      cases hr : validateAll rest with
      | none => rw [hv, hr] at h; cases h
      | some cs2 =>
        rw [hv, hr] at h
        cases h
        cases hc with
        | tail _ htl => exact ih cs2 hr c htl
        | head => exact validateCard_difficulty c0 c hv

/-- The breakdown fold succeeds as long as every reviewed index is in
range and every card carries a difficulty in the key set. -/
theorem difficulty_breakdown_isSome (cards : List RawCard)
    (hcards : ∀ c ∈ cards, ∃ n : ℤ,
      c.difficulty = some (PyVal.vint n) ∧ 1 ≤ n ∧ n ≤ 3) :
    ∀ (reviewed : List Nat) (t : Nat × Nat × Nat),
      (∀ i ∈ reviewed, i < cards.length) →
      (reviewed.foldl (breakdownStep cards) (some t)).isSome := by
  intro reviewed
  induction reviewed with
  | nil => intro t _; rfl
  | cons i rest ih =>
    intro t hrange
    rw [List.foldl_cons]
    have hi : i < cards.length := hrange i (List.mem_cons_self _ _)
    obtain ⟨card, hcard⟩ : ∃ card, cards[i]? = some card :=
      ⟨cards[i], List.getElem?_eq_getElem hi⟩
    have hmem : card ∈ cards := List.getElem?_mem hcard
    obtain ⟨n, hdn, hn1, hn3⟩ := hcards card hmem
    have hred : breakdownStep cards (some t) i = difficultyBump t card := by
      unfold breakdownStep
      rw [hcard]
    have hbump : ∃ t2, difficultyBump t card = some t2 := by
      unfold difficultyBump
      rw [hdn]
      interval_cases n
      · exact ⟨_, rfl⟩
      · exact ⟨_, rfl⟩
      · exact ⟨_, rfl⟩
    obtain ⟨t2, ht2⟩ := hbump
    rw [hred, ht2]
    exact ih t2 (fun j hj => hrange j (List.mem_cons_of_mem _ hj))

/-- C10: every card of a deck returned by `generate_flashcards` carries
an integer difficulty in the set 1..3; a card whose generated difficulty
is not an integer in 1..3 (but whose required fields are all present) is
not rejected — validation succeeds with its difficulty silently replaced
by 1 — and consequently the per-difficulty breakdown computed at session
end never looks up a key outside the dict with keys 1, 2 and 3: it
succeeds for every in-range reviewed-index set. -/
theorem flashcard_difficulty_safe (cs : List RawCard) (c : RawCard)
    (q a d k : PyVal) (reviewed : List Nat)
    (hq : c.question = some q) (ha : c.answer = some a)
    (hd : c.difficulty = some d) (hk : c.category = some k)
    (hbad : isValidDifficulty d = false)
    (hrange : ∀ i ∈ reviewed, i < (generate_flashcards cs).length) :
    (∀ c2 ∈ generate_flashcards cs, ∃ n : ℤ,
      c2.difficulty = some (PyVal.vint n) ∧ 1 ≤ n ∧ n ≤ 3)
    ∧ validateCard c = some { c with difficulty := some (PyVal.vint 1) }
    ∧ (difficulty_breakdown (generate_flashcards cs) reviewed).isSome := by
  have hall : ∀ c2 ∈ generate_flashcards cs, ∃ n : ℤ,
      c2.difficulty = some (PyVal.vint n) ∧ 1 ≤ n ∧ n ≤ 3 := by
    intro c2 hc2
    unfold generate_flashcards at hc2
    cases hva : validateAll cs with
    | none =>
      rw [hva] at hc2
      cases hc2
    | some out =>
      rw [hva] at hc2
      exact validateAll_difficulty cs out hva c2 hc2
  refine ⟨hall, ?_, ?_⟩
  · obtain ⟨oq, oa, od, ok⟩ := c
    simp only at hq ha hd hk
    subst hq
    subst ha
    subst hd
    subst hk
    rw [show validateCard ⟨some q, some a, some d, some k⟩
        = if isValidDifficulty d
          then some (⟨some q, some a, some d, some k⟩ : RawCard)
          else some ⟨some q, some a, some (PyVal.vint 1), some k⟩
      from rfl]
    rw [if_neg (by simp [hbad])]
  · exact difficulty_breakdown_isSome (generate_flashcards cs) hall
      reviewed (0, 0, 0) hrange

/-- A raw card with all fields present but a string difficulty, used by
the C10 witness. -/
def badDifficultyCard : RawCard :=
  { question := some (PyVal.vstr "q"), answer := some (PyVal.vstr "a"),
    difficulty := some (PyVal.vstr "hard"),
    category := some (PyVal.vstr "c") }

/-- Witness for C10: validating a deck holding one card with the string
difficulty "hard" succeeds with the difficulty silently replaced by 1,
and the breakdown over reviewed index 0 succeeds. -/
theorem flashcard_difficulty_safe_witness :
    validateCard badDifficultyCard
      = some { badDifficultyCard with difficulty := some (PyVal.vint 1) }
    ∧ (difficulty_breakdown (generate_flashcards [badDifficultyCard])
        [0]).isSome := by
  have h := flashcard_difficulty_safe [badDifficultyCard] badDifficultyCard
    (PyVal.vstr "q") (PyVal.vstr "a") (PyVal.vstr "hard") (PyVal.vstr "c")
    [0] rfl rfl rfl rfl rfl
    (by
      intro i hi
      have : i = 0 := by
        cases hi with
        | head => rfl
        | tail _ htl => cases htl
      subst this
      rw [show generate_flashcards [badDifficultyCard]
          = [{ badDifficultyCard with difficulty := some (PyVal.vint 1) }]
        from rfl]
      norm_num)
  exact ⟨h.2.1, h.2.2⟩

/-- Review statistics of a flashcard session
(`flashcard_set["stats"]`). -/
structure FStats where
  correct : Nat
  incorrect : Nat
  cards_reviewed : Finset Nat
deriving DecidableEq

/-- A flashcard session (`flashcard_set` in `create_flashcards`): the
deck, the current (cyclic) card index and the review statistics. -/
structure FSet where
  cards : List RawCard
  current_card : Nat
  stats : FStats
deriving DecidableEq

/-- The user controls handled by `on_reaction_add` for flashcards. -/
inductive FAction
  | showAnswer
  | nextCard
  | markCorrect
  | markIncorrect
deriving DecidableEq

/-- One reaction handled by `on_reaction_add` (lines 1572-1615):
show-answer redisplays without advancing; next advances the index modulo
the deck size; mark-correct and mark-incorrect record the judgment
against the current index (count and reviewed-index set) and then
advance. -/
def reactStep (s : FSet) : FAction → FSet
  | FAction.showAnswer => s
  | FAction.nextCard =>
      { s with current_card := (s.current_card + 1) % s.cards.length }
  | FAction.markCorrect =>
      { s with
        stats := { s.stats with
          correct := s.stats.correct + 1,
          cards_reviewed := insert s.current_card s.stats.cards_reviewed },
        current_card := (s.current_card + 1) % s.cards.length }
  | FAction.markIncorrect =>
      { s with
        stats := { s.stats with
          incorrect := s.stats.incorrect + 1,
          cards_reviewed := insert s.current_card s.stats.cards_reviewed },
        current_card := (s.current_card + 1) % s.cards.length }

/-- A fresh session over a deck, as built by `create_flashcards`:
index 0, no judgments, empty reviewed set. -/
def initFlashcardSet (cards : List RawCard) : FSet :=
  { cards := cards, current_card := 0,
    stats := { correct := 0, incorrect := 0, cards_reviewed := ∅ } }

/-- The accuracy computed by `end_flashcard_session` (line 1627):
`(correct / (correct + incorrect)) * 100` when at least one judgment was
recorded, 0 otherwise. -/
def session_accuracy (stats : FStats) : ℚ :=
  if stats.correct + stats.incorrect > 0 then
    ((stats.correct : ℚ) / ((stats.correct : ℚ) + (stats.incorrect : ℚ)))
      * 100
  else 0

/-- Folding the reaction handler counts exactly the mark-correct and
mark-incorrect actions. -/
theorem reactStep_counts (acts : List FAction) :
    ∀ s : FSet,
      (acts.foldl reactStep s).stats.correct
          = s.stats.correct + acts.count FAction.markCorrect
      ∧ (acts.foldl reactStep s).stats.incorrect
          = s.stats.incorrect + acts.count FAction.markIncorrect := by
  induction acts with
  | nil =>
    intro s
    simp
  | cons a rest ih =>
    intro s
    rw [List.foldl_cons, List.count_cons, List.count_cons]
    have := ih (reactStep s a)
    cases a with
    | showAnswer =>
      refine ⟨?_, ?_⟩ <;> simp [reactStep] at this ⊢ <;> omega
    | nextCard =>
      refine ⟨?_, ?_⟩ <;> simp [reactStep] at this ⊢ <;> omega
    | markCorrect =>
      refine ⟨?_, ?_⟩ <;> simp [reactStep] at this ⊢ <;> omega
    | markIncorrect =>
      refine ⟨?_, ?_⟩ <;> simp [reactStep] at this ⊢ <;> omega

/-- C9: for any deck of size at least 1 and any sequence of reactions,
the session-end accuracy equals `correct / (correct + incorrect)`
(scaled to the percentage the summary reports) over the recorded
judgments — the counts of mark-correct and mark-incorrect reactions —
and equals 0 when no card was judged. -/
theorem flashcard_accuracy (cards : List RawCard) (acts : List FAction)
    (hdeck : 1 ≤ cards.length) :
    (acts.foldl reactStep (initFlashcardSet cards)).stats.correct
        = acts.count FAction.markCorrect
    ∧ (acts.foldl reactStep (initFlashcardSet cards)).stats.incorrect
        = acts.count FAction.markIncorrect
    ∧ (acts.count FAction.markCorrect + acts.count FAction.markIncorrect > 0 →
        session_accuracy (acts.foldl reactStep (initFlashcardSet cards)).stats
          = ((acts.count FAction.markCorrect : ℚ)
              / ((acts.count FAction.markCorrect : ℚ)
                + (acts.count FAction.markIncorrect : ℚ))) * 100)
    ∧ (acts.count FAction.markCorrect + acts.count FAction.markIncorrect = 0 →
        session_accuracy (acts.foldl reactStep (initFlashcardSet cards)).stats
          = 0) := by
  have hc := (reactStep_counts acts (initFlashcardSet cards)).1
  have hi := (reactStep_counts acts (initFlashcardSet cards)).2
  rw [show (initFlashcardSet cards).stats.correct = 0 from rfl] at hc
  rw [show (initFlashcardSet cards).stats.incorrect = 0 from rfl] at hi
  rw [Nat.zero_add] at hc hi
  refine ⟨hc, hi, ?_, ?_⟩
  · intro hpos
    unfold session_accuracy
    rw [hc, hi, if_pos (by omega)]
  · intro hzero
    unfold session_accuracy
    rw [hc, hi, if_neg (by omega)]

/-- Witness for C9: over a one-card deck, one mark-correct followed by
one mark-incorrect gives counts 1 and 1, and accuracy
`(1 / (1 + 1)) * 100`. -/
theorem flashcard_accuracy_witness :
    ([FAction.markCorrect, FAction.markIncorrect].foldl reactStep
        (initFlashcardSet [badDifficultyCard])).stats.correct
      = [FAction.markCorrect, FAction.markIncorrect].count FAction.markCorrect
    ∧ session_accuracy
        ([FAction.markCorrect, FAction.markIncorrect].foldl reactStep
          (initFlashcardSet [badDifficultyCard])).stats
      = (((1 : ℚ)) / ((1 : ℚ) + (1 : ℚ))) * 100 := by
  have h := flashcard_accuracy [badDifficultyCard]
    [FAction.markCorrect, FAction.markIncorrect] (by norm_num)
  refine ⟨h.1, ?_⟩
  have hcount1 :
      [FAction.markCorrect, FAction.markIncorrect].count FAction.markCorrect
        = 1 := by decide
  have hcount2 :
      [FAction.markCorrect, FAction.markIncorrect].count FAction.markIncorrect
        = 1 := by decide
  have := h.2.2.1 (by rw [hcount1, hcount2]; norm_num)
  rw [this, hcount1, hcount2]
  norm_num
